import Mathlib

/-!
Shallow embedding of the pairing and validation engine of
`excel-file-checker` (`src/review_validator.py`, with the summary
aggregation of `src/main.py`).

Cell values reaching the engine are scalars already stringified by the
extraction layer (`cell_extractor.py` converts empty cells to `""`), so a
cell value is modelled as `String`.  Python's `None`-able slots
(`ReviewPair.checklist` / `ReviewPair.record`) are modelled as `Option`.
The dictionary `ReviewValidator.pairs` is modelled as an association list
with Python `dict` semantics: update keeps the position of an existing
key, a new key is appended at the end, lookup finds the unique binding.
-/

set_option autoImplicit false

namespace ExcelChecker

/-- The file-data dictionary handed to `ReviewValidator.add_file`
(`main.py _process_file_with_config` output): filename, extracted cell
values, the configured labels, and the image-check results
(entries are the markers produced by `ImageChecker`: "○" present,
"×" absent, "-" unsupported).  The `file_path` / `file_type` entries of
the Python dict are never read by the engine and are omitted. -/
structure FileData where
  filename : String
  cell_values : List String
  cell_labels : List String
  image_results : List String
deriving DecidableEq, Repr

/-- `ReviewPair`: a project's checklist slot and record slot
(`review_validator.py` lines 6-36). -/
structure ReviewPair where
  project_name : String
  checklist : Option FileData
  record : Option FileData
deriving DecidableEq, Repr

/-- `ReviewPair.has_both` (line 26). -/
def ReviewPair.has_both (p : ReviewPair) : Bool :=
  p.checklist.isSome && p.record.isSome

/-- `ReviewPair.has_checklist_only` (line 30). -/
def ReviewPair.has_checklist_only (p : ReviewPair) : Bool :=
  p.checklist.isSome && p.record.isNone

/-- `ReviewPair.has_record_only` (line 34). -/
def ReviewPair.has_record_only (p : ReviewPair) : Bool :=
  p.checklist.isNone && p.record.isSome

/-- The validation dictionary returned by `ReviewPair.validate`. -/
structure Verdict where
  has_pair : Bool
  date_match : Option Bool
  reviewer_match : Option Bool
  has_stamp : Option Bool
  status : String
  warnings : List String
deriving DecidableEq, Repr

/-- Python `list.index` (first index of an equal element; returns the
length when the element is absent, callers guard with membership). -/
def listIndex : List String → String → Nat
  | [], _ => 0
  | a :: rest, x => if a = x then 0 else listIndex rest x + 1

/-- `ReviewPair._get_value_by_label` (lines 163-183): membership test,
first-index search, bounds check, element access. -/
def ReviewPair.get_value_by_label (data : FileData) (label : String) : Option String :=
  let cell_labels := data.cell_labels
  let cell_values := data.cell_values
  if label ∈ cell_labels then
    if listIndex cell_labels label ≥ cell_values.length then none
    else cell_values[listIndex cell_labels label]?
  else none

/-- The characters of a list strictly after the first occurrence of `c`
(`s.split(":", 1)[1]` when `c` occurs). -/
def afterChar (c : Char) : List Char → List Char
  | [] => []
  | x :: xs => if x = c then xs else afterChar c xs

/-- Python `str.strip()`: drop whitespace from both ends. -/
def pyStrip (s : String) : String :=
  String.mk (((s.data.dropWhile Char.isWhitespace).reverse.dropWhile Char.isWhitespace).reverse)

/-- The record-side normalization of `_validate_date` / `_validate_reviewer`
(lines 124-126, 145-147): when a colon is present, the substring after the
first colon, stripped; otherwise the string unchanged. -/
def colonStrip (s : String) : String :=
  if s.data.contains ':' then pyStrip (String.mk (afterChar ':' s.data)) else s

/-- `ReviewPair._validate_date` (lines 107-128): checklist label "日付"
versus record label "承認日", absent lookup forces `false`, record side
colon-normalized, exact string equality. -/
def ReviewPair.validate_date (p : ReviewPair) : Bool :=
  match p.checklist, p.record with
  | some checklist, some record =>
    match ReviewPair.get_value_by_label checklist "日付",
          ReviewPair.get_value_by_label record "承認日" with
    | some checklist_date, some record_date => checklist_date == colonStrip record_date
    | _, _ => false
  | _, _ => false

/-- `ReviewPair._validate_reviewer` (lines 130-149): checklist label
"担当者" versus record label "レビュアー", same normalization. -/
def ReviewPair.validate_reviewer (p : ReviewPair) : Bool :=
  match p.checklist, p.record with
  | some checklist, some record =>
    match ReviewPair.get_value_by_label checklist "担当者",
          ReviewPair.get_value_by_label record "レビュアー" with
    | some checklist_reviewer, some record_reviewer =>
        checklist_reviewer == colonStrip record_reviewer
    | _, _ => false
  | _, _ => false

/-- `ReviewPair._check_stamp` (lines 151-161): `False` for a missing
record or an empty `image_results`, otherwise membership of "○". -/
def ReviewPair.check_stamp (record : Option FileData) : Bool :=
  match record with
  | none => false
  | some r =>
    let image_results := r.image_results
    if image_results.isEmpty then false
    else image_results.contains "○"

/-- `ReviewPair.validate` (lines 38-105).  The Python body first tests
`not has_both()` and inside it `has_checklist_only` / `has_record_only`;
since each of those two predicates already implies `not has_both()`, the
control flow flattens to the chain below, with the final branch shared by
the complete pair and the neither-slot fall-through. -/
def ReviewPair.validate (p : ReviewPair) : Verdict :=
  if p.has_checklist_only then
    { has_pair := false, date_match := none, reviewer_match := none,
      has_stamp := none, status := "⚠️ 記録表なし",
      warnings := ["レビュー記録表が見つかりません"] }
  else if p.has_record_only then
    let has_stamp := ReviewPair.check_stamp p.record
    let status := if has_stamp then "⚠️ チェックリストなし" else "⚠️ チェックリストなし・捺印なし"
    let warnings := if has_stamp then [] else ["捺印がありません"]
    { has_pair := false, date_match := none, reviewer_match := none,
      has_stamp := some has_stamp, status := status,
      warnings := ["レビューチェックリストが見つかりません"] ++ warnings }
  else
    let date_match := p.validate_date
    let reviewer_match := p.validate_reviewer
    let has_stamp := ReviewPair.check_stamp p.record
    let ok := date_match && reviewer_match && has_stamp
    let status := if ok then "✓ OK" else "⚠️ 不一致あり"
    let warnings :=
      if ok then []
      else (if !date_match then ["日付が一致しません"] else []) ++
           (if !reviewer_match then ["担当者/レビュアーが一致しません"] else []) ++
           (if !has_stamp then ["捺印がありません"] else [])
    { has_pair := true, date_match := some date_match,
      reviewer_match := some reviewer_match, has_stamp := some has_stamp,
      status := status, warnings := warnings }

/-- The state of `ReviewValidator`: the insertion-ordered dictionary
`pairs : Dict[str, ReviewPair]`. -/
abbrev Pairs := List (String × ReviewPair)

/-- Python dict lookup (`pairs[k]` / `k in pairs`): the value of the
unique binding of `k`. -/
def dictGet : Pairs → String → Option ReviewPair
  | [], _ => none
  | (k', v) :: rest, k => if k' = k then some v else dictGet rest k

/-- Python dict assignment (`pairs[k] = v`): replace in place when the
key exists, append otherwise. -/
def dictSet : Pairs → String → ReviewPair → Pairs
  | [], k, v => [(k, v)]
  | (k', v') :: rest, k, v =>
      if k' = k then (k', v) :: rest else (k', v') :: dictSet rest k v

/-- `ReviewValidator._extract_project_name` (lines 245-265): the value at
the label "プロジェクト名" when present and in range, otherwise
"Unknown_" followed by the filename. -/
def ReviewValidator.extract_project_name (file_data : FileData) : String :=
  let cell_labels := file_data.cell_labels
  let cell_values := file_data.cell_values
  if "プロジェクト名" ∈ cell_labels then
    if listIndex cell_labels "プロジェクト名" < cell_values.length then
      cell_values.getD (listIndex cell_labels "プロジェクト名") ""
    else "Unknown_" ++ file_data.filename
  else "Unknown_" ++ file_data.filename

/-- `ReviewValidator.add_file` (lines 193-221): derive the key, create
the pair when the key is new, then assign the slot selected by
`file_type` ("checklist" / "record"); any other type leaves both slots
unassigned. -/
def ReviewValidator.add_file (pairs : Pairs) (file_data : FileData) (file_type : String) : Pairs :=
  let project_name := ReviewValidator.extract_project_name file_data
  let pairs1 :=
    if (dictGet pairs project_name).isNone then
      dictSet pairs project_name (ReviewPair.mk project_name none none)
    else pairs
  let pair := (dictGet pairs1 project_name).getD (ReviewPair.mk project_name none none)
  if file_type = "checklist" then
    dictSet pairs1 project_name { pair with checklist := some file_data }
  else if file_type = "record" then
    dictSet pairs1 project_name { pair with record := some file_data }
  else pairs1

/-- Lexicographic comparison of character lists by code point —
Python's string ordering, used by `sorted(self.pairs.keys())`. -/
def charListLe : List Char → List Char → Bool
  | [], _ => true
  | _ :: _, [] => false
  | x :: xs, y :: ys => if x = y then charListLe xs ys else decide (x < y)

/-- Python `str` ordering (code-point lexicographic). -/
def strLe (a b : String) : Bool :=
  charListLe a.data b.data

theorem charListLe_total : ∀ a b : List Char,
    charListLe a b = true ∨ charListLe b a = true
  | [], b => Or.inl rfl
  | a :: as, [] => Or.inr rfl
  | x :: xs, y :: ys => by
    by_cases hxy : x = y
    · subst hxy
      simpa [charListLe] using charListLe_total xs ys
    · rcases lt_or_gt_of_ne hxy with h | h
      · exact Or.inl (by simp [charListLe, hxy, h])
      · have hyx : ¬y = x := fun hh => hxy hh.symm
        refine Or.inr ?_
        simp only [charListLe, if_neg hyx]
        exact decide_eq_true h

theorem charListLe_trans : ∀ {a b c : List Char},
    charListLe a b = true → charListLe b c = true → charListLe a c = true
  | [], _, _, _, _ => rfl
  | x :: xs, [], c, hab, _ => by simp [charListLe] at hab
  | x :: xs, y :: ys, [], _, hbc => by simp [charListLe] at hbc
  | x :: xs, y :: ys, z :: zs, hab, hbc => by
    by_cases hxy : x = y <;> by_cases hyz : y = z
    · subst hxy; subst hyz
      simp only [charListLe, if_pos rfl] at hab hbc ⊢
      exact charListLe_trans hab hbc
    · subst hxy
      simp [charListLe, hyz] at hbc ⊢
      exact hbc
    · subst hyz
      simp [charListLe, hxy] at hab ⊢
      exact hab
    · simp only [charListLe, if_neg hxy, if_neg hyz] at hab hbc
      have hxz : x < z := lt_trans (of_decide_eq_true hab) (of_decide_eq_true hbc)
      have hxz' : x ≠ z := ne_of_lt hxz
      simp [charListLe, hxz', hxz]

theorem charListLe_antisymm : ∀ {a b : List Char},
    charListLe a b = true → charListLe b a = true → a = b
  | [], [], _, _ => rfl
  | [], _ :: _, _, hba => by simp [charListLe] at hba
  | _ :: _, [], hab, _ => by simp [charListLe] at hab
  | x :: xs, y :: ys, hab, hba => by
    by_cases hxy : x = y
    · subst hxy
      simp only [charListLe, if_pos rfl] at hab hba
      rw [charListLe_antisymm hab hba]
    · have hyx : ¬y = x := fun hh => hxy hh.symm
      simp only [charListLe, if_neg hxy, if_neg hyx] at hab hba
      exact absurd (of_decide_eq_true hba) (lt_asymm (of_decide_eq_true hab))

theorem strLe_isTotal : IsTotal String (fun a b => strLe a b = true) :=
  ⟨fun a b => charListLe_total a.data b.data⟩

theorem strLe_isTrans : IsTrans String (fun a b => strLe a b = true) :=
  ⟨fun _ _ _ hab hbc => charListLe_trans hab hbc⟩

theorem strLe_isAntisymm : IsAntisymm String (fun a b => strLe a b = true) := by
  refine ⟨fun a b hab hba => ?_⟩
  obtain ⟨da⟩ := a
  obtain ⟨db⟩ := b
  exact congrArg String.mk (charListLe_antisymm hab hba)

/-- One entry of the list returned by `ReviewValidator.validate_all`. -/
structure ValidationResult where
  project_name : String
  checklist : Option FileData
  record : Option FileData
  validation : Verdict
deriving DecidableEq, Repr

/-- `ReviewValidator.validate_all` (lines 223-243): iterate the keys in
sorted order (`sorted(self.pairs.keys())`, Python's lexicographic
code-point order), look each pair up and validate it.  The `getD`
default is never reached: every iterated key is a key of the dictionary. -/
def ReviewValidator.validate_all (pairs : Pairs) : List ValidationResult :=
  (List.insertionSort (fun a b => strLe a b = true) (pairs.map Prod.fst)).map fun project_name =>
    let pair := (dictGet pairs project_name).getD (ReviewPair.mk project_name none none)
    { project_name := project_name, checklist := pair.checklist,
      record := pair.record, validation := pair.validate }

/-- The five counters of `ExcelFileChecker._generate_summary`
(`main.py` lines 413-451).  The source renders them into report lines;
the claims concern the counts. -/
structure Summary where
  total_pairs : Nat
  complete_pairs : Nat
  checklist_only : Nat
  record_only : Nat
  no_stamp : Nat
deriving DecidableEq, Repr

/-- The loop body of `_generate_summary` (lines 428-441): the
`if/elif/elif` chain on pair shape, then the independent
`has_stamp is False` test.  Python truthiness of the stored dicts is
modelled as slot presence. -/
def summaryLoop : List ValidationResult → Summary → Summary
  | [], acc => acc
  | r :: rest, acc =>
    let acc1 :=
      if r.validation.has_pair then
        { acc with complete_pairs := acc.complete_pairs + 1 }
      else if r.checklist.isSome && r.record.isNone then
        { acc with checklist_only := acc.checklist_only + 1 }
      else if r.record.isSome && r.checklist.isNone then
        { acc with record_only := acc.record_only + 1 }
      else acc
    let acc2 :=
      if r.validation.has_stamp = some false then
        { acc1 with no_stamp := acc1.no_stamp + 1 }
      else acc1
    summaryLoop rest acc2

/-- `ExcelFileChecker._generate_summary` (lines 413-451). -/
def generate_summary (validation_results : List ValidationResult) : Summary :=
  summaryLoop validation_results
    { total_pairs := validation_results.length, complete_pairs := 0,
      checklist_only := 0, record_only := 0, no_stamp := 0 }

/-! ### Derived notions used to state the claims -/

/-- The slot targeted by one `add_file` call: the derived project key
together with the role string. -/
def slotOf (e : FileData × String) : String × String :=
  (ReviewValidator.extract_project_name e.1, e.2)

/-- One `add_file` call as a step on the validator state. -/
def step (s : Pairs) (e : FileData × String) : Pairs :=
  ReviewValidator.add_file s e.1 e.2

/-- Run a whole sequence of `add_file` calls on a fresh validator. -/
def runAll (l : List (FileData × String)) : Pairs :=
  l.foldl step []

/-- The slot of a `ReviewPair` selected by a role string. -/
def slotGet (p : ReviewPair) (role : String) : Option FileData :=
  if role = "checklist" then p.checklist
  else if role = "record" then p.record
  else none

/-- How one insertion rewrites the pair of its key: the real roles assign
their slot, any other role leaves the pair untouched. -/
def applyRole (p : ReviewPair) (e : FileData × String) : ReviewPair :=
  if e.2 = "checklist" then { p with checklist := some e.1 }
  else if e.2 = "record" then { p with record := some e.1 }
  else p

/-- The pair `add_file` operates on: the existing one, or a fresh empty
pair for a new key. -/
def getOrInit (s : Pairs) (k : String) : ReviewPair :=
  (dictGet s k).getD (ReviewPair.mk k none none)

/-! ### Lemmas about `listIndex` -/

theorem listIndex_lt_length {l : List String} {x : String} (h : x ∈ l) :
    listIndex l x < l.length := by
  induction l with
  | nil => cases h
  | cons a rest ih =>
    by_cases hax : a = x
    · simp [listIndex, hax]
    · have hx : x ∈ rest := by
        rcases List.mem_cons.mp h with h1 | h1
        · exact absurd h1.symm hax
        · exact h1
      have := ih hx
      simp only [listIndex, hax, if_false, List.length_cons]
      omega

theorem listIndex_eq_of_first {l : List String} {x : String} {i : Nat}
    (hi : i < l.length) (hget : l.get ⟨i, hi⟩ = x)
    (hfirst : ∀ j (hj : j < l.length), j < i → l.get ⟨j, hj⟩ ≠ x) :
    listIndex l x = i := by
  induction l generalizing i with
  | nil => exact absurd hi (by simp)
  | cons a rest ih =>
    by_cases hax : a = x
    · cases i with
      | zero => simp [listIndex, hax]
      | succ i' =>
        exact absurd hax (hfirst 0 (by simp) (Nat.succ_pos i'))
    · cases i with
      | zero => exact absurd hget hax
      | succ i' =>
        have hi' : i' < rest.length := by
          simpa [Nat.succ_lt_succ_iff] using hi
        have hget' : rest.get ⟨i', hi'⟩ = x := hget
        have hfirst' : ∀ j (hj : j < rest.length), j < i' → rest.get ⟨j, hj⟩ ≠ x := by
          intro j hj hji
          exact hfirst (j + 1) (by simpa [Nat.succ_lt_succ_iff] using hj)
            (Nat.succ_lt_succ hji)
        simp [listIndex, hax, ih hi' hget' hfirst']

/-! ### Lemmas about the dictionary model -/

theorem dictGet_dictSet (s : Pairs) (k k' : String) (v : ReviewPair) :
    dictGet (dictSet s k v) k' = if k = k' then some v else dictGet s k' := by
  induction s with
  | nil => by_cases h : k = k' <;> simp [dictSet, dictGet, h]
  | cons p rest ih =>
    obtain ⟨a, b⟩ := p
    by_cases hak : a = k
    · by_cases hk' : k = k'
      · simp [dictSet, dictGet, hak, hk']
      · have : a ≠ k' := by rw [hak]; exact hk'
        simp [dictSet, dictGet, hak, hk', this]
    · by_cases hak' : a = k'
      · have hkk : k ≠ k' := fun h => hak (h ▸ hak')
        simp [dictSet, dictGet, hak, hak', hkk, Ne.symm hkk]
      · simp [dictSet, dictGet, hak, hak', ih]

theorem dictGet_eq_none_iff (s : Pairs) (k : String) :
    dictGet s k = none ↔ k ∉ s.map Prod.fst := by
  induction s with
  | nil => simp [dictGet]
  | cons p rest ih =>
    obtain ⟨a, b⟩ := p
    by_cases hak : a = k
    · simp [dictGet, hak]
    · simp only [dictGet, hak, if_false, List.map_cons, List.mem_cons, not_or, ih]
      constructor
      · intro h
        exact ⟨fun hk => hak hk.symm, h⟩
      · intro h
        exact h.2

theorem map_fst_dictSet_present {s : Pairs} {k : String} (v : ReviewPair)
    (h : dictGet s k ≠ none) :
    (dictSet s k v).map Prod.fst = s.map Prod.fst := by
  induction s with
  | nil => exact absurd rfl h
  | cons p rest ih =>
    obtain ⟨a, b⟩ := p
    by_cases hak : a = k
    · simp [dictSet, hak]
    · have h' : dictGet rest k ≠ none := by simpa [dictGet, hak] using h
      simp [dictSet, hak, ih h']

theorem map_fst_dictSet_absent {s : Pairs} {k : String} (v : ReviewPair)
    (h : dictGet s k = none) :
    (dictSet s k v).map Prod.fst = s.map Prod.fst ++ [k] := by
  induction s with
  | nil => simp [dictSet]
  | cons p rest ih =>
    obtain ⟨a, b⟩ := p
    by_cases hak : a = k
    · simp [dictGet, hak] at h
    · have h' : dictGet rest k = none := by simpa [dictGet, hak] using h
      simp [dictSet, hak, ih h']

theorem mem_dictSet {s : Pairs} {k : String} {v : ReviewPair} {p : String × ReviewPair}
    (h : p ∈ dictSet s k v) : p = (k, v) ∨ p ∈ s := by
  induction s with
  | nil => simpa [dictSet] using h
  | cons q rest ih =>
    obtain ⟨a, b⟩ := q
    by_cases hak : a = k
    · rcases (by simpa [dictSet, hak] using h : p = (a, v) ∨ p ∈ rest) with h1 | h1
      · exact Or.inl (by rw [h1, hak])
      · exact Or.inr (List.mem_cons_of_mem _ h1)
    · rcases (by simpa [dictSet, hak] using h : p = (a, b) ∨ p ∈ dictSet rest k v) with h1 | h1
      · exact Or.inr (by simp [h1])
      · rcases ih h1 with h2 | h2
        · exact Or.inl h2
        · exact Or.inr (List.mem_cons_of_mem _ h2)

theorem dictGet_mem {s : Pairs} {k : String} {v : ReviewPair}
    (h : dictGet s k = some v) : (k, v) ∈ s := by
  induction s with
  | nil => simp [dictGet] at h
  | cons q rest ih =>
    obtain ⟨a, b⟩ := q
    by_cases hak : a = k
    · simp [dictGet, hak] at h
      simp [hak, h]
    · have h' := by simpa [dictGet, hak] using h
      exact List.mem_cons_of_mem _ (ih h')

/-! ### Lemmas about single `add_file` steps -/

theorem add_file_eq (s : Pairs) (fd : FileData) (ft : String) :
    ReviewValidator.add_file s fd ft =
      (if ft = "checklist" ∨ ft = "record" then
        dictSet
          (if (dictGet s (ReviewValidator.extract_project_name fd)).isNone then
            dictSet s (ReviewValidator.extract_project_name fd)
              (ReviewPair.mk (ReviewValidator.extract_project_name fd) none none)
          else s)
          (ReviewValidator.extract_project_name fd)
          (applyRole (getOrInit s (ReviewValidator.extract_project_name fd)) (fd, ft))
      else if (dictGet s (ReviewValidator.extract_project_name fd)).isNone then
        dictSet s (ReviewValidator.extract_project_name fd)
          (ReviewPair.mk (ReviewValidator.extract_project_name fd) none none)
      else s) := by
  unfold ReviewValidator.add_file applyRole getOrInit
  set k := ReviewValidator.extract_project_name fd with hk
  by_cases h0 : (dictGet s k).isNone
  · have hnone : dictGet s k = none := by simpa using h0
    by_cases hcl : ft = "checklist"
    · simp [h0, hnone, hcl, dictGet_dictSet]
    · by_cases hrec : ft = "record"
      · simp [h0, hnone, hcl, hrec, dictGet_dictSet]
      · simp [h0, hnone, hcl, hrec, dictGet_dictSet]
  · obtain ⟨p, hp⟩ : ∃ p, dictGet s k = some p := by
      cases h : dictGet s k
      · simp [h] at h0
      · exact ⟨_, rfl⟩
    by_cases hcl : ft = "checklist"
    · simp [h0, hp, hcl]
    · by_cases hrec : ft = "record"
      · simp [h0, hp, hcl, hrec]
      · simp [h0, hp, hcl, hrec]

theorem applyRole_unknown {p : ReviewPair} {fd : FileData} {ft : String}
    (h1 : ft ≠ "checklist") (h2 : ft ≠ "record") : applyRole p (fd, ft) = p := by
  unfold applyRole
  simp [h1, h2]

theorem dictGet_step_self (s : Pairs) (e : FileData × String) :
    dictGet (step s e) (ReviewValidator.extract_project_name e.1) =
      some (applyRole (getOrInit s (ReviewValidator.extract_project_name e.1)) e) := by
  obtain ⟨fd, ft⟩ := e
  show dictGet (ReviewValidator.add_file s fd ft) _ = _
  rw [add_file_eq]
  set k := ReviewValidator.extract_project_name fd with hk
  by_cases hreal : ft = "checklist" ∨ ft = "record"
  · simp [hreal, dictGet_dictSet]
  · push_neg at hreal
    by_cases h0 : (dictGet s k).isNone
    · have hnone : dictGet s k = none := by simpa using h0
      simp [hreal, h0, dictGet_dictSet, getOrInit, hnone,
        applyRole_unknown hreal.1 hreal.2]
    · obtain ⟨p, hp⟩ : ∃ p, dictGet s k = some p := by
        cases h : dictGet s k
        · simp [h] at h0
        · exact ⟨_, rfl⟩
      simp [hreal, h0, getOrInit, hp, applyRole_unknown hreal.1 hreal.2]

theorem dictGet_step_ne (s : Pairs) (e : FileData × String) {k : String}
    (h : k ≠ ReviewValidator.extract_project_name e.1) :
    dictGet (step s e) k = dictGet s k := by
  obtain ⟨fd, ft⟩ := e
  show dictGet (ReviewValidator.add_file s fd ft) _ = _
  rw [add_file_eq]
  have h' : ReviewValidator.extract_project_name fd ≠ k := fun hh => h hh.symm
  by_cases hreal : ft = "checklist" ∨ ft = "record" <;>
    by_cases h0 : (dictGet s (ReviewValidator.extract_project_name fd)).isNone <;>
      simp [hreal, h0, dictGet_dictSet, h']

theorem map_fst_step (s : Pairs) (e : FileData × String) :
    (step s e).map Prod.fst =
      if (dictGet s (ReviewValidator.extract_project_name e.1)).isNone then
        s.map Prod.fst ++ [ReviewValidator.extract_project_name e.1]
      else s.map Prod.fst := by
  obtain ⟨fd, ft⟩ := e
  show (ReviewValidator.add_file s fd ft).map Prod.fst = _
  rw [add_file_eq]
  set k := ReviewValidator.extract_project_name fd with hk
  by_cases h0 : (dictGet s k).isNone
  · have hnone : dictGet s k = none := by simpa using h0
    have hset : dictGet (dictSet s k (ReviewPair.mk k none none)) k ≠ none := by
      simp [dictGet_dictSet]
    by_cases hreal : ft = "checklist" ∨ ft = "record"
    · simp [hreal, h0, map_fst_dictSet_present _ hset, map_fst_dictSet_absent _ hnone]
    · simp [hreal, h0, map_fst_dictSet_absent _ hnone]
  · have hsome : dictGet s k ≠ none := by simpa using h0
    by_cases hreal : ft = "checklist" ∨ ft = "record"
    · simp [hreal, h0, map_fst_dictSet_present _ hsome]
    · simp [hreal, h0]

theorem nodup_keys_step {s : Pairs} (e : FileData × String)
    (h : (s.map Prod.fst).Nodup) : ((step s e).map Prod.fst).Nodup := by
  rw [map_fst_step]
  by_cases h0 : (dictGet s (ReviewValidator.extract_project_name e.1)).isNone
  · have hnm : ReviewValidator.extract_project_name e.1 ∉ s.map Prod.fst :=
      (dictGet_eq_none_iff _ _).mp (by simpa using h0)
    simp [h0, List.nodup_append, h, hnm]
  · simpa [h0] using h

theorem nodup_keys_runAll_aux (l : List (FileData × String)) (s : Pairs)
    (h : (s.map Prod.fst).Nodup) : ((l.foldl step s).map Prod.fst).Nodup := by
  induction l generalizing s with
  | nil => simpa using h
  | cons e rest ih => exact ih (step s e) (nodup_keys_step e h)

theorem nodup_keys_runAll (l : List (FileData × String)) :
    ((runAll l).map Prod.fst).Nodup :=
  nodup_keys_runAll_aux l [] (by simp)

/-! ### Observational equivalence of validator states

Two states are observationally equivalent when they bind the same keys
(as a multiset) to the same pairs; `validate_all` cannot tell them
apart because it sorts the keys. -/

def obsEquiv (s t : Pairs) : Prop :=
  List.Perm (s.map Prod.fst) (t.map Prod.fst) ∧ ∀ k, dictGet s k = dictGet t k

theorem obsEquiv_refl (s : Pairs) : obsEquiv s s :=
  ⟨List.Perm.refl _, fun _ => rfl⟩

theorem obsEquiv_trans {s t u : Pairs} (h1 : obsEquiv s t) (h2 : obsEquiv t u) :
    obsEquiv s u :=
  ⟨h1.1.trans h2.1, fun k => (h1.2 k).trans (h2.2 k)⟩

/-- `dictGet_step_self`, stated for any name of the derived key. -/
theorem dictGet_step_key (s : Pairs) (e : FileData × String) {k : String}
    (hkey : k = ReviewValidator.extract_project_name e.1) :
    dictGet (step s e) k = some (applyRole (getOrInit s k) e) := by
  subst hkey
  exact dictGet_step_self s e

theorem step_congr {s t : Pairs} (e : FileData × String) (h : obsEquiv s t) :
    obsEquiv (step s e) (step t e) := by
  obtain ⟨hkeys, hget⟩ := h
  refine ⟨?_, ?_⟩
  · rw [map_fst_step, map_fst_step, hget]
    by_cases h0 : (dictGet t (ReviewValidator.extract_project_name e.1)).isNone
    · simpa [h0] using hkeys.append_right _
    · simpa [h0] using hkeys
  · intro k
    by_cases hk : k = ReviewValidator.extract_project_name e.1
    · rw [dictGet_step_key _ _ hk, dictGet_step_key _ _ hk]
      unfold getOrInit
      rw [hget]
    · rw [dictGet_step_ne _ _ hk, dictGet_step_ne _ _ hk, hget]

theorem foldl_step_congr (l : List (FileData × String)) {s t : Pairs}
    (h : obsEquiv s t) : obsEquiv (l.foldl step s) (l.foldl step t) := by
  induction l generalizing s t with
  | nil => simpa using h
  | cons e rest ih => exact ih (step_congr e h)

theorem applyRole_comm {p : ReviewPair} {a b : FileData × String} (h : a.2 ≠ b.2) :
    applyRole (applyRole p a) b = applyRole (applyRole p b) a := by
  unfold applyRole
  by_cases ha1 : a.2 = "checklist" <;> by_cases hb1 : b.2 = "checklist" <;>
    by_cases ha2 : a.2 = "record" <;> by_cases hb2 : b.2 = "record" <;>
      simp_all

theorem step_swap {s : Pairs} {a b : FileData × String} (h : slotOf a ≠ slotOf b) :
    obsEquiv (step (step s a) b) (step (step s b) a) := by
  by_cases hk : ReviewValidator.extract_project_name a.1 =
      ReviewValidator.extract_project_name b.1
  · have hrole : a.2 ≠ b.2 := by
      intro hr
      exact h (by simp [slotOf, hk, hr])
    refine ⟨?_, ?_⟩
    · rw [map_fst_step (step s a), map_fst_step (step s b),
        map_fst_step s a, map_fst_step s b, hk]
      have c1 : dictGet (step s a) (ReviewValidator.extract_project_name b.1) =
          some (applyRole (getOrInit s (ReviewValidator.extract_project_name b.1)) a) :=
        dictGet_step_key s a hk.symm
      have c2 : dictGet (step s b) (ReviewValidator.extract_project_name b.1) =
          some (applyRole (getOrInit s (ReviewValidator.extract_project_name b.1)) b) :=
        dictGet_step_key s b rfl
      simp only [c1, c2, Option.isNone_some, Bool.false_eq_true, if_false]
      exact List.Perm.refl _
    · intro k
      by_cases hka : k = ReviewValidator.extract_project_name a.1
      · have hkb : k = ReviewValidator.extract_project_name b.1 := hka.trans hk
        rw [dictGet_step_key _ b hkb, dictGet_step_key _ a hka]
        unfold getOrInit
        rw [dictGet_step_key s a hka, dictGet_step_key s b hkb]
        simp only [Option.getD_some]
        rw [applyRole_comm hrole]
      · have hkb : k ≠ ReviewValidator.extract_project_name b.1 := by
          rw [← hk]
          exact hka
        rw [dictGet_step_ne _ b hkb, dictGet_step_ne _ a hka,
          dictGet_step_ne _ a hka, dictGet_step_ne _ b hkb]
  · have hkb : ReviewValidator.extract_project_name b.1 ≠
        ReviewValidator.extract_project_name a.1 := fun hh => hk hh.symm
    refine ⟨?_, ?_⟩
    · rw [map_fst_step (step s a), map_fst_step (step s b),
        map_fst_step s a, map_fst_step s b,
        dictGet_step_ne s a hkb, dictGet_step_ne s b hk]
      by_cases h0a : (dictGet s (ReviewValidator.extract_project_name a.1)).isNone <;>
        by_cases h0b : (dictGet s (ReviewValidator.extract_project_name b.1)).isNone
      · simp only [h0a, h0b, if_true]
        rw [List.append_assoc, List.append_assoc]
        exact List.Perm.append_left _ (List.Perm.swap _ _ _)
      · simp only [h0a, h0b, if_true, Bool.false_eq_true, if_false]
        exact List.Perm.refl _
      · simp only [h0a, h0b, if_true, Bool.false_eq_true, if_false]
        exact List.Perm.refl _
      · simp only [h0a, h0b, Bool.false_eq_true, if_false]
        exact List.Perm.refl _
    · intro k
      by_cases hka : k = ReviewValidator.extract_project_name a.1
      · have hknb : k ≠ ReviewValidator.extract_project_name b.1 := by
          rw [hka]
          exact hk
        rw [dictGet_step_ne _ b hknb, dictGet_step_key s a hka,
          dictGet_step_key (step s b) a hka]
        unfold getOrInit
        rw [dictGet_step_ne s b hknb]
      · by_cases hkb' : k = ReviewValidator.extract_project_name b.1
        · rw [dictGet_step_key _ b hkb', dictGet_step_ne _ a hka,
            dictGet_step_key s b hkb']
          unfold getOrInit
          rw [dictGet_step_ne s a (by rw [hkb']; exact hkb)]
        · rw [dictGet_step_ne _ b hkb', dictGet_step_ne _ a hka,
            dictGet_step_ne _ a hka, dictGet_step_ne _ b hkb']

theorem foldl_step_perm {l l' : List (FileData × String)} (h : List.Perm l l') :
    (l.map slotOf).Nodup → ∀ s : Pairs,
      obsEquiv (l.foldl step s) (l'.foldl step s) := by
  induction h with
  | nil => exact fun _ s => obsEquiv_refl _
  | cons x hrest ih =>
    intro hnd s
    simp only [List.map_cons, List.nodup_cons] at hnd
    exact ih hnd.2 (step s x)
  | swap x y l =>
    intro hnd s
    have hxy : slotOf y ≠ slotOf x := by
      simp only [List.map_cons, List.nodup_cons, List.mem_cons] at hnd
      exact fun hh => hnd.1 (Or.inl hh)
    exact foldl_step_congr l (step_swap hxy)
  | trans h1 h2 ih1 ih2 =>
    intro hnd s
    exact obsEquiv_trans (ih1 hnd s) (ih2 (((h1.map slotOf).nodup_iff).mp hnd) s)

theorem validate_all_obsEquiv {s t : Pairs} (h : obsEquiv s t) :
    ReviewValidator.validate_all s = ReviewValidator.validate_all t := by
  obtain ⟨hkeys, hget⟩ := h
  unfold ReviewValidator.validate_all
  haveI := strLe_isTotal
  haveI := strLe_isTrans
  have hperm : List.Perm (List.insertionSort (fun a b => strLe a b = true) (s.map Prod.fst))
      (List.insertionSort (fun a b => strLe a b = true) (t.map Prod.fst)) :=
    (List.perm_insertionSort _ _).trans
      (hkeys.trans (List.perm_insertionSort _ _).symm)
  have hsort : List.insertionSort (fun a b => strLe a b = true) (s.map Prod.fst) =
      List.insertionSort (fun a b => strLe a b = true) (t.map Prod.fst) :=
    @List.eq_of_perm_of_sorted String (fun a b => strLe a b = true)
      strLe_isAntisymm _ _ hperm
      (List.sorted_insertionSort _ _) (List.sorted_insertionSort _ _)
  rw [hsort]
  apply List.map_congr_left
  intro k _
  simp only [hget k]

/-! ### Slot persistence and the key invariant -/

/-- The occupant of the `(key, role)` slot of a state, `none` when the
key is unbound or the slot is empty. -/
def joinSlot (s : Pairs) (k role : String) : Option FileData :=
  (dictGet s k).bind (fun p => slotGet p role)

theorem slotGet_empty (k role : String) :
    slotGet (ReviewPair.mk k none none) role = none := by
  unfold slotGet
  split_ifs <;> rfl

theorem slotGet_applyRole_ne {p : ReviewPair} {e : FileData × String} {role : String}
    (h : e.2 ≠ role) : slotGet (applyRole p e) role = slotGet p role := by
  unfold slotGet applyRole
  by_cases h1 : e.2 = "checklist" <;> by_cases h2 : e.2 = "record" <;>
    by_cases h3 : role = "checklist" <;> by_cases h4 : role = "record" <;>
      simp_all

theorem slotGet_applyRole_self {p : ReviewPair} {fd : FileData} {role : String}
    (h : role = "checklist" ∨ role = "record") :
    slotGet (applyRole p (fd, role)) role = some fd := by
  rcases h with h | h <;> subst h <;> simp [slotGet, applyRole]

theorem joinSlot_step_ne {s : Pairs} {e : FileData × String} {k role : String}
    (h : ¬(ReviewValidator.extract_project_name e.1 = k ∧ e.2 = role)) :
    joinSlot (step s e) k role = joinSlot s k role := by
  by_cases hk : k = ReviewValidator.extract_project_name e.1
  · have hrole : e.2 ≠ role := fun hr => h ⟨hk.symm, hr⟩
    unfold joinSlot
    rw [dictGet_step_key s e hk]
    simp only [Option.some_bind]
    rw [slotGet_applyRole_ne hrole]
    unfold getOrInit
    cases hdg : dictGet s k with
    | none => simp [hdg, slotGet_empty]
    | some p => simp [hdg]
  · unfold joinSlot
    rw [dictGet_step_ne s e hk]

theorem joinSlot_foldl {l : List (FileData × String)} {k role : String}
    (h : ∀ e ∈ l, ¬(ReviewValidator.extract_project_name e.1 = k ∧ e.2 = role)) :
    ∀ s : Pairs, joinSlot (l.foldl step s) k role = joinSlot s k role := by
  induction l with
  | nil => intro s; rfl
  | cons e rest ih =>
    intro s
    have h1 := h e (List.mem_cons_self _ _)
    have h2 := fun e' he' => h e' (List.mem_cons_of_mem _ he')
    exact (ih h2 (step s e)).trans (joinSlot_step_ne h1)

theorem joinSlot_step_self {s : Pairs} {fd : FileData} {role : String}
    (h : role = "checklist" ∨ role = "record") :
    joinSlot (step s (fd, role)) (ReviewValidator.extract_project_name fd) role =
      some fd := by
  unfold joinSlot
  rw [dictGet_step_self]
  simp only [Option.some_bind]
  exact slotGet_applyRole_self h

/-- Every pair of the state holds only records whose derived project key
is the pair's own key (so a record can never sit under a foreign key). -/
def StateInv (s : Pairs) : Prop :=
  ∀ kp ∈ s,
    (∀ fd, kp.2.checklist = some fd →
      ReviewValidator.extract_project_name fd = kp.1) ∧
    (∀ fd, kp.2.record = some fd →
      ReviewValidator.extract_project_name fd = kp.1)

theorem stateInv_dictSet {s : Pairs} {k : String} {v : ReviewPair} (h : StateInv s)
    (hv : (∀ g, v.checklist = some g → ReviewValidator.extract_project_name g = k) ∧
          (∀ g, v.record = some g → ReviewValidator.extract_project_name g = k)) :
    StateInv (dictSet s k v) := by
  intro kp hkp
  rcases mem_dictSet hkp with h1 | h1
  · rw [h1]
    exact hv
  · exact h kp h1

theorem stateInv_step {s : Pairs} (e : FileData × String) (h : StateInv s) :
    StateInv (step s e) := by
  obtain ⟨fd, ft⟩ := e
  show StateInv (ReviewValidator.add_file s fd ft)
  rw [add_file_eq]
  have hempty : StateInv
      (if (dictGet s (ReviewValidator.extract_project_name fd)).isNone then
        dictSet s (ReviewValidator.extract_project_name fd)
          (ReviewPair.mk (ReviewValidator.extract_project_name fd) none none)
      else s) := by
    by_cases h0 : (dictGet s (ReviewValidator.extract_project_name fd)).isNone
    · rw [if_pos h0]
      exact stateInv_dictSet h (by simp)
    · rw [if_neg h0]
      exact h
  have hbase :
      (∀ g, (getOrInit s (ReviewValidator.extract_project_name fd)).checklist = some g →
        ReviewValidator.extract_project_name g = ReviewValidator.extract_project_name fd) ∧
      (∀ g, (getOrInit s (ReviewValidator.extract_project_name fd)).record = some g →
        ReviewValidator.extract_project_name g = ReviewValidator.extract_project_name fd) := by
    unfold getOrInit
    cases hdg : dictGet s (ReviewValidator.extract_project_name fd) with
    | none => simp
    | some p => simpa using h (ReviewValidator.extract_project_name fd, p) (dictGet_mem hdg)
  by_cases hreal : ft = "checklist" ∨ ft = "record"
  · rw [if_pos hreal]
    apply stateInv_dictSet hempty
    rcases hreal with hft | hft <;> subst hft
    · constructor
      · intro g hg
        have hfg : fd = g := by simpa [applyRole] using hg
        rw [← hfg]
      · intro g hg
        exact hbase.2 g (by simpa [applyRole] using hg)
    · constructor
      · intro g hg
        exact hbase.1 g (by simpa [applyRole] using hg)
      · intro g hg
        have hfg : fd = g := by simpa [applyRole] using hg
        rw [← hfg]
  · rw [if_neg hreal]
    exact hempty

theorem stateInv_foldl (l : List (FileData × String)) {s : Pairs} (h : StateInv s) :
    StateInv (l.foldl step s) := by
  induction l generalizing s with
  | nil => simpa using h
  | cons e rest ih => exact ih (stateInv_step e h)

theorem stateInv_runAll (l : List (FileData × String)) : StateInv (runAll l) :=
  stateInv_foldl l (fun kp hkp => absurd hkp (List.not_mem_nil kp))

/-! ### Shape lemmas for `ReviewPair.validate` -/

theorem validate_of_checklist_only {p : ReviewPair} (h : p.has_checklist_only = true) :
    p.validate =
      { has_pair := false, date_match := none, reviewer_match := none,
        has_stamp := none, status := "⚠️ 記録表なし",
        warnings := ["レビュー記録表が見つかりません"] } := by
  unfold ReviewPair.validate
  rw [if_pos h]

theorem has_checklist_only_false_of_record_only {p : ReviewPair}
    (h : p.has_record_only = true) : p.has_checklist_only = false := by
  unfold ReviewPair.has_record_only at h
  unfold ReviewPair.has_checklist_only
  cases hc : p.checklist <;> simp [hc] at h ⊢

theorem validate_of_record_only {p : ReviewPair} (h : p.has_record_only = true) :
    p.validate =
      { has_pair := false, date_match := none, reviewer_match := none,
        has_stamp := some (ReviewPair.check_stamp p.record),
        status := if ReviewPair.check_stamp p.record then "⚠️ チェックリストなし"
          else "⚠️ チェックリストなし・捺印なし",
        warnings := ["レビューチェックリストが見つかりません"] ++
          (if ReviewPair.check_stamp p.record then [] else ["捺印がありません"]) } := by
  unfold ReviewPair.validate
  rw [if_neg (by simp [has_checklist_only_false_of_record_only h]), if_pos h]

theorem incomplete_pair_false {p : ReviewPair}
    (h1 : p.has_checklist_only = false) (h2 : p.has_record_only = false) :
    p.validate =
      { has_pair := true, date_match := some p.validate_date,
        reviewer_match := some p.validate_reviewer,
        has_stamp := some (ReviewPair.check_stamp p.record),
        status := if p.validate_date && p.validate_reviewer &&
            ReviewPair.check_stamp p.record then "✓ OK" else "⚠️ 不一致あり",
        warnings :=
          if p.validate_date && p.validate_reviewer && ReviewPair.check_stamp p.record
          then []
          else (if !p.validate_date then ["日付が一致しません"] else []) ++
            (if !p.validate_reviewer then ["担当者/レビュアーが一致しません"] else []) ++
            (if !ReviewPair.check_stamp p.record then ["捺印がありません"] else []) } := by
  unfold ReviewPair.validate
  rw [if_neg (by simp [h1]), if_neg (by simp [h2])]

theorem has_both_shape {p : ReviewPair} (h : p.has_both = true) :
    p.has_checklist_only = false ∧ p.has_record_only = false := by
  unfold ReviewPair.has_both at h
  unfold ReviewPair.has_checklist_only ReviewPair.has_record_only
  cases hc : p.checklist <;> cases hr : p.record <;> simp [hc, hr] at h ⊢

/-! ### Characterization of the label lookup and the project key -/

theorem get_value_by_label_not_mem {data : FileData} {label : String}
    (h : label ∉ data.cell_labels) :
    ReviewPair.get_value_by_label data label = none := by
  unfold ReviewPair.get_value_by_label
  simp [h]

theorem get_value_by_label_at_index {data : FileData} {label : String} {i : Nat}
    (hi : i < data.cell_labels.length) (hget : data.cell_labels.get ⟨i, hi⟩ = label)
    (hfirst : ∀ j (hj : j < data.cell_labels.length), j < i →
      data.cell_labels.get ⟨j, hj⟩ ≠ label) :
    ReviewPair.get_value_by_label data label =
      if hv : i < data.cell_values.length then some (data.cell_values.get ⟨i, hv⟩)
      else none := by
  have hmem : label ∈ data.cell_labels := hget ▸ List.get_mem _ _ hi
  have hidx : listIndex data.cell_labels label = i :=
    listIndex_eq_of_first hi hget hfirst
  unfold ReviewPair.get_value_by_label
  rw [if_pos hmem, hidx]
  by_cases hv : i < data.cell_values.length
  · rw [if_neg (by omega), dif_pos hv, List.getElem?_eq_getElem hv]
    rfl
  · rw [if_pos (by omega), dif_neg hv]

theorem extract_project_name_spec (fd : FileData) :
    ReviewValidator.extract_project_name fd =
      match ReviewPair.get_value_by_label fd "プロジェクト名" with
      | some v => v
      | none => "Unknown_" ++ fd.filename := by
  unfold ReviewValidator.extract_project_name ReviewPair.get_value_by_label
  by_cases hmem : "プロジェクト名" ∈ fd.cell_labels
  · by_cases hlt : listIndex fd.cell_labels "プロジェクト名" < fd.cell_values.length
    · rw [if_pos hmem, if_pos hmem, if_pos hlt, if_neg (by omega),
        List.getElem?_eq_getElem hlt]
      simp [List.getD_eq_getElem?_getD, List.getElem?_eq_getElem hlt]
    · rw [if_pos hmem, if_pos hmem, if_neg hlt, if_pos (by omega)]
  · rw [if_neg hmem, if_neg hmem]

/-! ### Characterization of the colon normalization -/

theorem afterChar_append {c : Char} {pre post : List Char} (h : c ∉ pre) :
    afterChar c (pre ++ c :: post) = post := by
  induction pre with
  | nil => simp [afterChar]
  | cons x xs ih =>
    have hx : x ≠ c := fun hh => h (hh ▸ List.mem_cons_self _ _)
    simpa [afterChar, hx] using ih (fun hh => h (List.mem_cons_of_mem _ hh))

theorem colonStrip_no_colon {s : String} (h : s.data.contains ':' = false) :
    colonStrip s = s := by
  unfold colonStrip
  rw [h]
  simp

theorem colonStrip_split {pre post : List Char} (h : ':' ∉ pre) :
    colonStrip (String.mk (pre ++ ':' :: post)) = pyStrip (String.mk post) := by
  unfold colonStrip
  have hc : (String.mk (pre ++ ':' :: post)).data.contains ':' = true := by
    simp
  rw [hc]
  simp only [if_true]
  rw [afterChar_append h]

/-! ### The engine with Python's partial primitives made explicit

Each list index access, `list.index` search and dict key access of the
source can raise in Python; here they return `Except`, and the guards
of the source are shown to make every raise unreachable. -/

/-- Python `l[i]` (raises `IndexError` out of range). -/
def pyGet {α : Type} (l : List α) (i : Nat) : Except String α :=
  if h : i < l.length then Except.ok (l.get ⟨i, h⟩) else Except.error "IndexError"

/-- Python `l.index(x)` (raises `ValueError` when absent). -/
def pyListIndex : List String → String → Except String Nat
  | [], _ => Except.error "ValueError"
  | a :: rest, x =>
      if a = x then Except.ok 0 else (pyListIndex rest x).map (· + 1)

/-- Python `d[k]` (raises `KeyError` when unbound). -/
def pyDictGet (d : Pairs) (k : String) : Except String ReviewPair :=
  match dictGet d k with
  | some v => Except.ok v
  | none => Except.error "KeyError"

/-- Python `s.split(c, 1)`: at most one split, at the first occurrence. -/
def pySplit1 (c : Char) (s : String) : List String :=
  if s.data.contains c then
    [String.mk (s.data.takeWhile (fun x => x != c)), String.mk (afterChar c s.data)]
  else [s]

/-- `_get_value_by_label` with explicit raises. -/
def get_value_by_labelE (data : FileData) (label : String) :
    Except String (Option String) :=
  if label ∈ data.cell_labels then do
    let index ← pyListIndex data.cell_labels label
    if index ≥ data.cell_values.length then return none
    else do
      let v ← pyGet data.cell_values index
      return (some v)
  else return none

/-- `_validate_date` with explicit raises. -/
def validate_dateE (p : ReviewPair) : Except String Bool :=
  match p.checklist, p.record with
  | some checklist, some record => do
    let checklist_date ← get_value_by_labelE checklist "日付"
    let record_date ← get_value_by_labelE record "承認日"
    match checklist_date, record_date with
    | some cd, some rd =>
      if rd.data.contains ':' then do
        let part ← pyGet (pySplit1 ':' rd) 1
        return (cd == pyStrip part)
      else return (cd == rd)
    | _, _ => return false
  | _, _ => return false

/-- `_validate_reviewer` with explicit raises. -/
def validate_reviewerE (p : ReviewPair) : Except String Bool :=
  match p.checklist, p.record with
  | some checklist, some record => do
    let checklist_reviewer ← get_value_by_labelE checklist "担当者"
    let record_reviewer ← get_value_by_labelE record "レビュアー"
    match checklist_reviewer, record_reviewer with
    | some cr, some rr =>
      if rr.data.contains ':' then do
        let part ← pyGet (pySplit1 ':' rr) 1
        return (cr == pyStrip part)
      else return (cr == rr)
    | _, _ => return false
  | _, _ => return false

/-- `_check_stamp` (no partial primitive occurs in its body). -/
def check_stampE (record : Option FileData) : Except String Bool :=
  match record with
  | none => return false
  | some r =>
    if r.image_results.isEmpty then return false
    else return (r.image_results.contains "○")

/-- `ReviewPair.validate` with explicit raises. -/
def validateE (p : ReviewPair) : Except String Verdict := do
  if p.has_checklist_only then
    return { has_pair := false, date_match := none, reviewer_match := none,
             has_stamp := none, status := "⚠️ 記録表なし",
             warnings := ["レビュー記録表が見つかりません"] }
  else if p.has_record_only then
    let has_stamp ← check_stampE p.record
    return { has_pair := false, date_match := none, reviewer_match := none,
             has_stamp := some has_stamp,
             status := if has_stamp then "⚠️ チェックリストなし" else "⚠️ チェックリストなし・捺印なし",
             warnings := ["レビューチェックリストが見つかりません"] ++
               (if has_stamp then [] else ["捺印がありません"]) }
  else
    let date_match ← validate_dateE p
    let reviewer_match ← validate_reviewerE p
    let has_stamp ← check_stampE p.record
    return { has_pair := true, date_match := some date_match,
             reviewer_match := some reviewer_match, has_stamp := some has_stamp,
             status := if date_match && reviewer_match && has_stamp then "✓ OK"
               else "⚠️ 不一致あり",
             warnings :=
               if date_match && reviewer_match && has_stamp then []
               else (if !date_match then ["日付が一致しません"] else []) ++
                 (if !reviewer_match then ["担当者/レビュアーが一致しません"] else []) ++
                 (if !has_stamp then ["捺印がありません"] else []) }

/-- `_extract_project_name` with explicit raises. -/
def extract_project_nameE (fd : FileData) : Except String String :=
  if "プロジェクト名" ∈ fd.cell_labels then do
    let index ← pyListIndex fd.cell_labels "プロジェクト名"
    if index < fd.cell_values.length then do
      let v ← pyGet fd.cell_values index
      return v
    else return ("Unknown_" ++ fd.filename)
  else return ("Unknown_" ++ fd.filename)

/-- `add_file` with explicit raises. -/
def add_fileE (pairs : Pairs) (file_data : FileData) (file_type : String) :
    Except String Pairs := do
  let project_name ← extract_project_nameE file_data
  let pairs1 :=
    if (dictGet pairs project_name).isNone then
      dictSet pairs project_name (ReviewPair.mk project_name none none)
    else pairs
  let pair ← pyDictGet pairs1 project_name
  if file_type = "checklist" then
    return dictSet pairs1 project_name { pair with checklist := some file_data }
  else if file_type = "record" then
    return dictSet pairs1 project_name { pair with record := some file_data }
  else return pairs1

/-- `validate_all` with explicit raises. -/
def validate_allE (pairs : Pairs) : Except String (List ValidationResult) :=
  (List.insertionSort (fun a b => strLe a b = true) (pairs.map Prod.fst)).mapM fun project_name => do
    let pair ← pyDictGet pairs project_name
    let validation ← validateE pair
    return { project_name := project_name, checklist := pair.checklist,
             record := pair.record, validation := validation }

/-! ### No raise is reachable: the explicit-raise engine agrees with the
pure one -/

theorem pyListIndex_ok {l : List String} {x : String} (h : x ∈ l) :
    pyListIndex l x = Except.ok (listIndex l x) := by
  induction l with
  | nil => cases h
  | cons a rest ih =>
    by_cases hax : a = x
    · simp [pyListIndex, listIndex, hax]
    · have hx : x ∈ rest := by
        rcases List.mem_cons.mp h with h1 | h1
        · exact absurd h1.symm hax
        · exact h1
      simp [pyListIndex, listIndex, hax, ih hx, Except.map]

theorem pure_eq_ok {α : Type} (a : α) : (pure a : Except String α) = Except.ok a :=
  rfl

theorem ok_bind {α β : Type} (a : α) (f : α → Except String β) :
    (Except.ok a >>= f) = f a :=
  rfl

theorem get_value_by_labelE_ok (data : FileData) (label : String) :
    get_value_by_labelE data label =
      Except.ok (ReviewPair.get_value_by_label data label) := by
  unfold get_value_by_labelE ReviewPair.get_value_by_label
  by_cases hmem : label ∈ data.cell_labels
  · rw [if_pos hmem, if_pos hmem, pyListIndex_ok hmem, ok_bind]
    by_cases hge : listIndex data.cell_labels label ≥ data.cell_values.length
    · rw [if_pos hge, if_pos hge]
      rfl
    · have hlt : listIndex data.cell_labels label < data.cell_values.length := by
        omega
      rw [if_neg hge, if_neg hge]
      unfold pyGet
      rw [dif_pos hlt, ok_bind, List.getElem?_eq_getElem hlt]
      rfl
  · rw [if_neg hmem, if_neg hmem]
    rfl

theorem pyGet_pySplit1_one {s : String} (h : s.data.contains ':' = true) :
    pyGet (pySplit1 ':' s) 1 = Except.ok (String.mk (afterChar ':' s.data)) := by
  unfold pySplit1
  rw [h]
  simp only [if_true]
  rfl

theorem validate_dateE_ok (p : ReviewPair) :
    validate_dateE p = Except.ok p.validate_date := by
  obtain ⟨n, c, r⟩ := p
  cases c with
  | none => cases r <;> rfl
  | some checklist =>
    cases r with
    | none => rfl
    | some record =>
      unfold validate_dateE ReviewPair.validate_date
      dsimp only
      rw [get_value_by_labelE_ok, get_value_by_labelE_ok]
      simp only [ok_bind]
      cases ReviewPair.get_value_by_label checklist "日付" with
      | none => cases ReviewPair.get_value_by_label record "承認日" <;> rfl
      | some cd =>
        cases ReviewPair.get_value_by_label record "承認日" with
        | none => rfl
        | some rd =>
          dsimp only
          unfold colonStrip
          cases hcon : rd.data.contains ':' with
          | false => rfl
          | true =>
            rw [pyGet_pySplit1_one hcon]
            simp only [ok_bind]
            rfl

theorem validate_reviewerE_ok (p : ReviewPair) :
    validate_reviewerE p = Except.ok p.validate_reviewer := by
  obtain ⟨n, c, r⟩ := p
  cases c with
  | none => cases r <;> rfl
  | some checklist =>
    cases r with
    | none => rfl
    | some record =>
      unfold validate_reviewerE ReviewPair.validate_reviewer
      dsimp only
      rw [get_value_by_labelE_ok, get_value_by_labelE_ok]
      simp only [ok_bind]
      cases ReviewPair.get_value_by_label checklist "担当者" with
      | none => cases ReviewPair.get_value_by_label record "レビュアー" <;> rfl
      | some cr =>
        cases ReviewPair.get_value_by_label record "レビュアー" with
        | none => rfl
        | some rr =>
          dsimp only
          unfold colonStrip
          cases hcon : rr.data.contains ':' with
          | false => rfl
          | true =>
            rw [pyGet_pySplit1_one hcon]
            simp only [ok_bind]
            rfl

theorem check_stampE_ok (record : Option FileData) :
    check_stampE record = Except.ok (ReviewPair.check_stamp record) := by
  cases record with
  | none => rfl
  | some r =>
    unfold check_stampE ReviewPair.check_stamp
    dsimp only
    cases r.image_results.isEmpty <;> rfl

theorem validateE_ok (p : ReviewPair) : validateE p = Except.ok p.validate := by
  unfold validateE ReviewPair.validate
  by_cases h1 : p.has_checklist_only = true
  · rw [if_pos h1, if_pos h1]
    rfl
  · rw [if_neg h1, if_neg h1]
    by_cases h2 : p.has_record_only = true
    · rw [if_pos h2, if_pos h2, check_stampE_ok]
      simp only [ok_bind]
      rfl
    · rw [if_neg h2, if_neg h2, validate_dateE_ok]
      simp only [ok_bind]
      rw [validate_reviewerE_ok]
      simp only [ok_bind]
      rw [check_stampE_ok]
      simp only [ok_bind]
      rfl

theorem extract_project_nameE_ok (fd : FileData) :
    extract_project_nameE fd =
      Except.ok (ReviewValidator.extract_project_name fd) := by
  unfold extract_project_nameE ReviewValidator.extract_project_name
  by_cases hmem : "プロジェクト名" ∈ fd.cell_labels
  · rw [if_pos hmem, if_pos hmem, pyListIndex_ok hmem]
    simp only [ok_bind]
    by_cases hlt : listIndex fd.cell_labels "プロジェクト名" < fd.cell_values.length
    · rw [if_pos hlt, if_pos hlt]
      unfold pyGet
      rw [dif_pos hlt]
      simp only [ok_bind]
      rw [List.getD_eq_getElem?_getD, List.getElem?_eq_getElem hlt]
      rfl
    · rw [if_neg hlt, if_neg hlt]
      rfl
  · rw [if_neg hmem, if_neg hmem]
    rfl

theorem add_fileE_ok (pairs : Pairs) (file_data : FileData) (file_type : String) :
    add_fileE pairs file_data file_type =
      Except.ok (ReviewValidator.add_file pairs file_data file_type) := by
  unfold add_fileE ReviewValidator.add_file
  rw [extract_project_nameE_ok]
  simp only [ok_bind]
  obtain ⟨p, hp⟩ : ∃ p,
      dictGet (if (dictGet pairs (ReviewValidator.extract_project_name file_data)).isNone then
          dictSet pairs (ReviewValidator.extract_project_name file_data)
            (ReviewPair.mk (ReviewValidator.extract_project_name file_data) none none)
        else pairs) (ReviewValidator.extract_project_name file_data) = some p := by
    by_cases h0 : (dictGet pairs (ReviewValidator.extract_project_name file_data)).isNone
    · rw [if_pos h0, dictGet_dictSet, if_pos rfl]
      exact ⟨_, rfl⟩
    · rw [if_neg h0]
      cases hdg : dictGet pairs (ReviewValidator.extract_project_name file_data)
      · rw [hdg] at h0
        exact absurd rfl h0
      · exact ⟨_, rfl⟩
  unfold pyDictGet
  rw [hp]
  dsimp only
  simp only [ok_bind]
  by_cases hcl : file_type = "checklist"
  · rw [if_pos hcl, if_pos hcl]
    rfl
  · rw [if_neg hcl, if_neg hcl]
    by_cases hrec : file_type = "record"
    · rw [if_pos hrec, if_pos hrec]
      rfl
    · rw [if_neg hrec, if_neg hrec]
      rfl

theorem list_mapM_ok {α β : Type} (f : α → Except String β) (g : α → β)
    (l : List α) (h : ∀ a ∈ l, f a = Except.ok (g a)) :
    l.mapM f = Except.ok (l.map g) := by
  induction l with
  | nil => rfl
  | cons a rest ih =>
    rw [List.mapM_cons, h a (List.mem_cons_self _ _),
      ih (fun a' ha' => h a' (List.mem_cons_of_mem _ ha'))]
    rfl

theorem validate_allE_ok (pairs : Pairs) :
    validate_allE pairs = Except.ok (ReviewValidator.validate_all pairs) := by
  unfold validate_allE ReviewValidator.validate_all
  apply list_mapM_ok
  intro k hk
  have hkmem : k ∈ pairs.map Prod.fst := (List.perm_insertionSort _ _).subset hk
  obtain ⟨p, hp⟩ : ∃ p, dictGet pairs k = some p := by
    cases hdg : dictGet pairs k
    · exact absurd ((dictGet_eq_none_iff _ _).mp hdg) (by simpa using hkmem)
    · exact ⟨_, rfl⟩
  unfold pyDictGet
  rw [hp]
  dsimp only
  simp only [ok_bind]
  rw [validateE_ok]
  simp only [ok_bind]
  rfl

/-! ### The summary aggregation as counts -/

theorem summaryLoop_spec (l : List ValidationResult) (acc : Summary) :
    summaryLoop l acc =
      { total_pairs := acc.total_pairs,
        complete_pairs := acc.complete_pairs +
          l.countP (fun r => r.validation.has_pair),
        checklist_only := acc.checklist_only +
          l.countP (fun r => !r.validation.has_pair &&
            (r.checklist.isSome && r.record.isNone)),
        record_only := acc.record_only +
          l.countP (fun r => !r.validation.has_pair &&
            (r.record.isSome && r.checklist.isNone)),
        no_stamp := acc.no_stamp +
          l.countP (fun r => decide (r.validation.has_stamp = some false)) } := by
  induction l generalizing acc with
  | nil => rfl
  | cons r rest ih =>
    by_cases h1 : r.validation.has_pair = true <;>
      by_cases h2 : (r.checklist.isSome && r.record.isNone) = true <;>
        by_cases h3 : (r.record.isSome && r.checklist.isNone) = true <;>
          by_cases h4 : r.validation.has_stamp = some false <;>
            simp [summaryLoop, h1, h2, h3, h4, ih, List.countP_cons,
              Summary.mk.injEq] <;>
              first
                | omega
                | (cases hc : r.checklist <;> cases hr : r.record <;> simp_all)

theorem mem_validate_all {pairs : Pairs} {r : ValidationResult}
    (h : r ∈ ReviewValidator.validate_all pairs) :
    ∃ pair : ReviewPair, r.checklist = pair.checklist ∧
      r.record = pair.record ∧ r.validation = pair.validate := by
  unfold ReviewValidator.validate_all at h
  rcases List.mem_map.mp h with ⟨k, _, rfl⟩
  exact ⟨_, rfl, rfl, rfl⟩

theorem has_pair_false_of_checklist_only {p : ReviewPair}
    (h : (p.checklist.isSome && p.record.isNone) = true) :
    p.validate.has_pair = false := by
  rw [validate_of_checklist_only h]

theorem has_pair_false_of_record_only {p : ReviewPair}
    (h : (p.record.isSome && p.checklist.isNone) = true) :
    p.validate.has_pair = false := by
  have h' : p.has_record_only = true := by
    unfold ReviewPair.has_record_only
    simp only [Bool.and_eq_true] at h ⊢
    exact ⟨h.2, h.1⟩
  rw [validate_of_record_only h']

theorem map_project_name_validate_all (pairs : Pairs) :
    (ReviewValidator.validate_all pairs).map (fun r => r.project_name) =
      List.insertionSort (fun a b => strLe a b = true) (pairs.map Prod.fst) := by
  unfold ReviewValidator.validate_all
  generalize List.insertionSort (fun a b => strLe a b = true) (pairs.map Prod.fst) = L
  induction L with
  | nil => rfl
  | cons k L ih => simpa using ih

/-! ## The claims -/

/-- C1, counterexample: inserting a record with role "unknown" does create
a `ReviewPair` with neither role populated, and `validate_all` produces a
verdict referencing its key — contradicting the claim that such an
insertion inserts nothing and yields zero verdicts. -/
theorem C1_unknown_role_counterexample :
    ReviewValidator.add_file []
        (FileData.mk "f.xlsx" ["P1"] ["プロジェクト名"] []) "unknown" =
      [("P1", ReviewPair.mk "P1" none none)] ∧
    (ReviewValidator.validate_all (ReviewValidator.add_file []
        (FileData.mk "f.xlsx" ["P1"] ["プロジェクト名"] []) "unknown")).map
      (fun r => r.project_name) = ["P1"] := by
  constructor
  · decide
  · decide

/-- C1, amended: an insertion whose role is neither "checklist" nor
"record" assigns neither slot (the record's data is dropped), but when
its key is new it does create a `ReviewPair` with neither role populated,
and `validate_all()` then produces a verdict referencing that key. -/
theorem C1_unknown_role_amended :
    ∀ (pairs : Pairs) (file_data : FileData) (role : String),
      role ≠ "checklist" → role ≠ "record" →
      (ReviewValidator.add_file pairs file_data role =
        (if (dictGet pairs (ReviewValidator.extract_project_name file_data)).isNone then
          dictSet pairs (ReviewValidator.extract_project_name file_data)
            (ReviewPair.mk (ReviewValidator.extract_project_name file_data) none none)
        else pairs)) ∧
      ∃ r ∈ ReviewValidator.validate_all
          (ReviewValidator.add_file pairs file_data role),
        r.project_name = ReviewValidator.extract_project_name file_data := by
  intro pairs file_data role h1 h2
  have heq : ReviewValidator.add_file pairs file_data role =
      (if (dictGet pairs (ReviewValidator.extract_project_name file_data)).isNone then
        dictSet pairs (ReviewValidator.extract_project_name file_data)
          (ReviewPair.mk (ReviewValidator.extract_project_name file_data) none none)
      else pairs) := by
    rw [add_file_eq, if_neg (by rintro (h | h) <;> [exact h1 h; exact h2 h])]
  refine ⟨heq, ?_⟩
  have hkeys : ReviewValidator.extract_project_name file_data ∈
      (ReviewValidator.add_file pairs file_data role).map Prod.fst := by
    rw [show ReviewValidator.add_file pairs file_data role =
        step pairs (file_data, role) from rfl, map_fst_step]
    by_cases h0 : (dictGet pairs
        (ReviewValidator.extract_project_name file_data)).isNone
    · rw [if_pos h0]
      exact List.mem_append_right _ (by simp)
    · rw [if_neg h0]
      by_contra hnm
      rw [(dictGet_eq_none_iff _ _).mpr hnm] at h0
      exact h0 rfl
  have hk2 : ReviewValidator.extract_project_name file_data ∈
      List.insertionSort (fun a b => strLe a b = true)
        ((ReviewValidator.add_file pairs file_data role).map Prod.fst) :=
    ((List.perm_insertionSort _ _).mem_iff).mpr hkeys
  exact ⟨_, List.mem_map_of_mem _ hk2, rfl⟩

/-- C1, witness for the amended claim at a concrete unknown-role
insertion. -/
theorem C1_unknown_role_amended_witness :
    ReviewValidator.add_file [] (FileData.mk "g.xlsx" [] [] []) "other" =
      (if (dictGet [] (ReviewValidator.extract_project_name
          (FileData.mk "g.xlsx" [] [] []))).isNone then
        dictSet [] (ReviewValidator.extract_project_name (FileData.mk "g.xlsx" [] [] []))
          (ReviewPair.mk (ReviewValidator.extract_project_name
            (FileData.mk "g.xlsx" [] [] [])) none none)
      else []) ∧
    ∃ r ∈ ReviewValidator.validate_all (ReviewValidator.add_file []
        (FileData.mk "g.xlsx" [] [] []) "other"),
      r.project_name = ReviewValidator.extract_project_name
        (FileData.mk "g.xlsx" [] [] []) :=
  C1_unknown_role_amended [] (FileData.mk "g.xlsx" [] [] []) "other"
    (by decide) (by decide)

/-- C2: the per-pair validation returns exactly the verdict of the state
table — checklist-only, record-only without stamp, fully consistent
complete pair, and complete pair with at least one failing check (one
warning per failing check in the order date, reviewer, stamp). -/
theorem C2_validate_state_table :
    (∀ p : ReviewPair, p.has_checklist_only = true →
      p.validate =
        { has_pair := false, date_match := none, reviewer_match := none,
          has_stamp := none, status := "⚠️ 記録表なし",
          warnings := ["レビュー記録表が見つかりません"] }) ∧
    (∀ p : ReviewPair, p.has_record_only = true →
      ReviewPair.check_stamp p.record = false →
      p.validate =
        { has_pair := false, date_match := none, reviewer_match := none,
          has_stamp := some false, status := "⚠️ チェックリストなし・捺印なし",
          warnings := ["レビューチェックリストが見つかりません", "捺印がありません"] }) ∧
    (∀ p : ReviewPair, p.has_both = true → p.validate_date = true →
      p.validate_reviewer = true → ReviewPair.check_stamp p.record = true →
      p.validate =
        { has_pair := true, date_match := some true,
          reviewer_match := some true, has_stamp := some true, status := "✓ OK",
          warnings := [] }) ∧
    (∀ p : ReviewPair, p.has_both = true →
      (p.validate_date && p.validate_reviewer &&
        ReviewPair.check_stamp p.record) = false →
      p.validate =
        { has_pair := true, date_match := some p.validate_date,
          reviewer_match := some p.validate_reviewer,
          has_stamp := some (ReviewPair.check_stamp p.record),
          status := "⚠️ 不一致あり",
          warnings := (if p.validate_date then [] else ["日付が一致しません"]) ++
            (if p.validate_reviewer then [] else ["担当者/レビュアーが一致しません"]) ++
            (if ReviewPair.check_stamp p.record then [] else ["捺印がありません"]) }) := by
  refine ⟨?_, ?_, ?_, ?_⟩
  · intro p h
    exact validate_of_checklist_only h
  · intro p h hs
    rw [validate_of_record_only h]
    simp [hs]
  · intro p hb hd hr hs
    obtain ⟨h1, h2⟩ := has_both_shape hb
    rw [incomplete_pair_false h1 h2]
    simp [hd, hr, hs]
  · intro p hb hfail
    obtain ⟨h1, h2⟩ := has_both_shape hb
    rw [incomplete_pair_false h1 h2]
    cases hdm : p.validate_date <;> cases hrm : p.validate_reviewer <;>
      cases hsm : ReviewPair.check_stamp p.record <;> simp_all

/-- C2, witness: one concrete pair per state-table row. -/
theorem C2_validate_state_table_witness :
    (ReviewPair.mk "p" (some (FileData.mk "c" [] [] [])) none).validate.status =
      "⚠️ 記録表なし" ∧
    (ReviewPair.mk "p" none (some (FileData.mk "r" [] [] []))).validate.status =
      "⚠️ チェックリストなし・捺印なし" ∧
    (ReviewPair.mk "p"
      (some (FileData.mk "c" ["2025-01-01", "山田"] ["日付", "担当者"] []))
      (some (FileData.mk "r" ["承認日: 2025-01-01", "レビュアー: 山田"]
        ["承認日", "レビュアー"] ["○"]))).validate.status = "✓ OK" ∧
    (ReviewPair.mk "p"
      (some (FileData.mk "c" ["2025-01-01", "山田"] ["日付", "担当者"] []))
      (some (FileData.mk "r" ["承認日: 2025-02-01", "レビュアー: 山田"]
        ["承認日", "レビュアー"] ["○"]))).validate.status = "⚠️ 不一致あり" := by
  refine ⟨?_, ?_, ?_, ?_⟩
  · rw [C2_validate_state_table.1
      (ReviewPair.mk "p" (some (FileData.mk "c" [] [] [])) none) (by decide)]
  · rw [C2_validate_state_table.2.1
      (ReviewPair.mk "p" none (some (FileData.mk "r" [] [] [])))
      (by decide) (by decide)]
  · rw [C2_validate_state_table.2.2.1
      (ReviewPair.mk "p"
        (some (FileData.mk "c" ["2025-01-01", "山田"] ["日付", "担当者"] []))
        (some (FileData.mk "r" ["承認日: 2025-01-01", "レビュアー: 山田"]
          ["承認日", "レビュアー"] ["○"])))
      (by decide) (by decide) (by decide) (by decide)]
  · rw [C2_validate_state_table.2.2.2
      (ReviewPair.mk "p"
        (some (FileData.mk "c" ["2025-01-01", "山田"] ["日付", "担当者"] []))
        (some (FileData.mk "r" ["承認日: 2025-02-01", "レビュアー: 山田"]
          ["承認日", "レビュアー"] ["○"])))
      (by decide) (by decide)]

/-- C3: the date rule compares checklist label "日付" with record label
"承認日", the reviewer rule compares "担当者" with "レビュアー"; an
absent lookup forces `false`; only the record-side value is
colon-normalized (substring after the first colon, stripped), and the
comparison is exact string equality of the normalized values. -/
theorem C3_match_rules :
    (∀ (n : String) (cl rcd : FileData),
      (ReviewPair.mk n (some cl) (some rcd)).validate_date =
        match ReviewPair.get_value_by_label cl "日付",
              ReviewPair.get_value_by_label rcd "承認日" with
        | some cd, some rd => cd == colonStrip rd
        | _, _ => false) ∧
    (∀ (n : String) (cl rcd : FileData),
      (ReviewPair.mk n (some cl) (some rcd)).validate_reviewer =
        match ReviewPair.get_value_by_label cl "担当者",
              ReviewPair.get_value_by_label rcd "レビュアー" with
        | some cr, some rr => cr == colonStrip rr
        | _, _ => false) ∧
    (∀ s : String, s.data.contains ':' = false → colonStrip s = s) ∧
    (∀ pre post : List Char, ':' ∉ pre →
      colonStrip (String.mk (pre ++ ':' :: post)) = pyStrip (String.mk post)) ∧
    (∀ (n : String) (cl rcd : FileData),
      ReviewPair.get_value_by_label cl "日付" = none ∨
        ReviewPair.get_value_by_label rcd "承認日" = none →
      (ReviewPair.mk n (some cl) (some rcd)).validate_date = false) ∧
    (∀ (n : String) (cl rcd : FileData),
      ReviewPair.get_value_by_label cl "担当者" = none ∨
        ReviewPair.get_value_by_label rcd "レビュアー" = none →
      (ReviewPair.mk n (some cl) (some rcd)).validate_reviewer = false) := by
  refine ⟨fun n cl rcd => rfl, fun n cl rcd => rfl,
    fun s h => colonStrip_no_colon h, fun pre post h => colonStrip_split h,
    ?_, ?_⟩
  · intro n cl rcd h
    unfold ReviewPair.validate_date
    dsimp only
    rcases h with h | h
    · rw [h]
    · rw [h]
      cases ReviewPair.get_value_by_label cl "日付" <;> rfl
  · intro n cl rcd h
    unfold ReviewPair.validate_reviewer
    dsimp only
    rcases h with h | h
    · rw [h]
    · rw [h]
      cases ReviewPair.get_value_by_label cl "担当者" <;> rfl

/-- C3, witness at concrete strings and documents. -/
theorem C3_match_rules_witness :
    colonStrip "2025-01-01" = "2025-01-01" ∧
    colonStrip (String.mk (['a'] ++ ':' :: [' ', 'x'])) =
      pyStrip (String.mk [' ', 'x']) ∧
    (ReviewPair.mk "p" (some (FileData.mk "c" [] [] []))
      (some (FileData.mk "r" [] [] []))).validate_date = false ∧
    (ReviewPair.mk "p" (some (FileData.mk "c" [] [] []))
      (some (FileData.mk "r" [] [] []))).validate_reviewer = false :=
  ⟨C3_match_rules.2.2.1 "2025-01-01" (by decide),
   C3_match_rules.2.2.2.1 ['a'] [' ', 'x'] (by decide),
   C3_match_rules.2.2.2.2.1 "p" _ _ (Or.inl (by decide)),
   C3_match_rules.2.2.2.2.2 "p" _ _ (Or.inl (by decide))⟩

/-- C4, counterexample: two insertion orders of the same set of
(project key, role, record) triples — two record-role insertions for the
same key — give different `validate_all` output (last-write-wins). -/
theorem C4_insertion_order_counterexample :
    List.Perm
      [((FileData.mk "a.xlsx" ["P1"] ["プロジェクト名"] ["○"]), "record"),
       ((FileData.mk "b.xlsx" ["P1"] ["プロジェクト名"] ["×"]), "record")]
      [((FileData.mk "b.xlsx" ["P1"] ["プロジェクト名"] ["×"]), "record"),
       ((FileData.mk "a.xlsx" ["P1"] ["プロジェクト名"] ["○"]), "record")] ∧
    ReviewValidator.validate_all (runAll
      [((FileData.mk "a.xlsx" ["P1"] ["プロジェクト名"] ["○"]), "record"),
       ((FileData.mk "b.xlsx" ["P1"] ["プロジェクト名"] ["×"]), "record")]) ≠
    ReviewValidator.validate_all (runAll
      [((FileData.mk "b.xlsx" ["P1"] ["プロジェクト名"] ["×"]), "record"),
       ((FileData.mk "a.xlsx" ["P1"] ["プロジェクト名"] ["○"]), "record")]) := by
  constructor
  · exact List.Perm.swap _ _ _
  · decide

/-- C4, amended: when no two insertions target the same
(project key, role) slot, every reordering of the insertion sequence
yields the same verdict sequence, and the output is always iterated in
lexicographically sorted project-key order; with duplicate slots the
output is order-dependent (last-write-wins). -/
theorem C4_insertion_order_amended :
    (∀ l l' : List (FileData × String), List.Perm l l' →
      (l.map slotOf).Nodup →
      ReviewValidator.validate_all (runAll l) =
        ReviewValidator.validate_all (runAll l')) ∧
    (∀ pairs : Pairs,
      (ReviewValidator.validate_all pairs).map (fun r => r.project_name) =
        List.insertionSort (fun a b => strLe a b = true) (pairs.map Prod.fst) ∧
      List.Sorted (fun a b => strLe a b = true)
        ((ReviewValidator.validate_all pairs).map (fun r => r.project_name))) := by
  constructor
  · intro l l' hperm hnd
    exact validate_all_obsEquiv (foldl_step_perm hperm hnd [])
  · intro pairs
    refine ⟨map_project_name_validate_all pairs, ?_⟩
    rw [map_project_name_validate_all pairs]
    haveI := strLe_isTotal
    haveI := strLe_isTrans
    exact List.sorted_insertionSort _ _

/-- C4, witness for the amended claim at a concrete permutation. -/
theorem C4_insertion_order_amended_witness :
    ReviewValidator.validate_all (runAll
      [(FileData.mk "c" ["P"] ["プロジェクト名"] [], "checklist")]) =
    ReviewValidator.validate_all (runAll
      [(FileData.mk "c" ["P"] ["プロジェクト名"] [], "checklist")]) :=
  C4_insertion_order_amended.1 _ _ (List.Perm.refl _) (by decide)

/-- C5: `has_stamp` of a record-role document is true exactly when its
`image_results` contains a "○" (present) marker; an empty sequence means
stamp-absent; and an undefined `has_stamp` in a verdict occurs only when
the pair holds no record document. -/
theorem C5_stamp_rule :
    (∀ r : FileData,
      ReviewPair.check_stamp (some r) = true ↔ "○" ∈ r.image_results) ∧
    (∀ r : FileData, r.image_results = [] →
      ReviewPair.check_stamp (some r) = false) ∧
    (∀ p : ReviewPair, p.validate.has_stamp = none → p.record = none) := by
  refine ⟨?_, ?_, ?_⟩
  · intro r
    unfold ReviewPair.check_stamp
    by_cases he : r.image_results.isEmpty = true
    · rw [List.isEmpty_iff] at he
      simp [he]
    · simp [he]
  · intro r h
    unfold ReviewPair.check_stamp
    simp [h]
  · intro p h
    obtain ⟨n, c, r⟩ := p
    cases c <;> cases r <;>
      simp_all [ReviewPair.validate, ReviewPair.has_checklist_only,
        ReviewPair.has_record_only]

/-- C5, witness at concrete records and pairs. -/
theorem C5_stamp_rule_witness :
    ReviewPair.check_stamp (some (FileData.mk "r" [] [] [])) = false ∧
    (ReviewPair.mk "p" (some (FileData.mk "c" [] [] [])) none).record = none :=
  ⟨C5_stamp_rule.2.1 (FileData.mk "r" [] [] []) rfl,
   C5_stamp_rule.2.2 (ReviewPair.mk "p" (some (FileData.mk "c" [] [] [])) none)
     (by decide)⟩

/-- C6: label lookup returns the value aligned with the first occurrence
of the label, `none` when the label is absent or the first index is out
of range of the value list. -/
theorem C6_label_lookup :
    (∀ (data : FileData) (label : String), label ∉ data.cell_labels →
      ReviewPair.get_value_by_label data label = none) ∧
    (∀ (data : FileData) (label : String) (i : Nat)
        (hi : i < data.cell_labels.length),
      data.cell_labels.get ⟨i, hi⟩ = label →
      (∀ j (hj : j < data.cell_labels.length), j < i →
        data.cell_labels.get ⟨j, hj⟩ ≠ label) →
      ReviewPair.get_value_by_label data label =
        if hv : i < data.cell_values.length then
          some (data.cell_values.get ⟨i, hv⟩)
        else none) :=
  ⟨fun _ _ h => get_value_by_label_not_mem h,
   fun _ _ _ hi hget hfirst => get_value_by_label_at_index hi hget hfirst⟩

/-- C6, witness: an absent label, and a duplicated label where the first
occurrence wins. -/
theorem C6_label_lookup_witness :
    ReviewPair.get_value_by_label (FileData.mk "f" [] [] []) "X" = none ∧
    ReviewPair.get_value_by_label
      (FileData.mk "f" ["v0", "v1"] ["L", "L"] []) "L" = some "v0" := by
  constructor
  · exact C6_label_lookup.1 (FileData.mk "f" [] [] []) "X" (by decide)
  · rw [C6_label_lookup.2 (FileData.mk "f" ["v0", "v1"] ["L", "L"] []) "L" 0
      (by decide) rfl (fun j hj hj0 => absurd hj0 (Nat.not_lt_zero j))]
    rfl

/-- C7: the project key is the label-lookup value of "プロジェクト名",
falling back to "Unknown_" + filename; a checklist/record insertion whose
slot is not overwritten later is reachable in the final state at its key,
the keys are pairwise distinct, a record can only sit under its own
derived key (so it sits in exactly one pair), and a second insertion of
the same slot overwrites the first (last-write-wins). -/
theorem C7_project_key_and_completeness :
    (∀ fd : FileData,
      ReviewValidator.extract_project_name fd =
        match ReviewPair.get_value_by_label fd "プロジェクト名" with
        | some v => v
        | none => "Unknown_" ++ fd.filename) ∧
    (∀ (l1 l2 : List (FileData × String)) (fd : FileData) (role : String),
      role = "checklist" ∨ role = "record" →
      (∀ e ∈ l2, slotOf e ≠ (ReviewValidator.extract_project_name fd, role)) →
      ∃ p : ReviewPair,
        dictGet (runAll (l1 ++ (fd, role) :: l2))
          (ReviewValidator.extract_project_name fd) = some p ∧
        slotGet p role = some fd) ∧
    (∀ l : List (FileData × String), ((runAll l).map Prod.fst).Nodup) ∧
    (∀ (l : List (FileData × String)) (k : String) (p : ReviewPair),
      (k, p) ∈ runAll l → ∀ fd : FileData,
      p.checklist = some fd ∨ p.record = some fd →
      k = ReviewValidator.extract_project_name fd) ∧
    (∀ (s : Pairs) (fd1 fd2 : FileData) (role : String),
      role = "checklist" ∨ role = "record" →
      ReviewValidator.extract_project_name fd1 =
        ReviewValidator.extract_project_name fd2 →
      joinSlot (step (step s (fd1, role)) (fd2, role))
        (ReviewValidator.extract_project_name fd2) role = some fd2) := by
  refine ⟨fun fd => extract_project_name_spec fd, ?_, nodup_keys_runAll, ?_, ?_⟩
  · intro l1 l2 fd role hrole hl2
    have hl2' : ∀ e ∈ l2,
        ¬(ReviewValidator.extract_project_name e.1 =
            ReviewValidator.extract_project_name fd ∧ e.2 = role) := by
      rintro e he ⟨ha, hb⟩
      exact hl2 e he (by simp [slotOf, ha, hb])
    have hfold : runAll (l1 ++ (fd, role) :: l2) =
        l2.foldl step (step (l1.foldl step []) (fd, role)) := by
      unfold runAll
      rw [List.foldl_append]
      rfl
    have hj : joinSlot (runAll (l1 ++ (fd, role) :: l2))
        (ReviewValidator.extract_project_name fd) role = some fd := by
      rw [hfold, joinSlot_foldl hl2', joinSlot_step_self hrole]
    unfold joinSlot at hj
    cases hdg : dictGet (runAll (l1 ++ (fd, role) :: l2))
        (ReviewValidator.extract_project_name fd) with
    | none =>
      rw [hdg] at hj
      simp at hj
    | some p =>
      rw [hdg] at hj
      exact ⟨p, rfl, by simpa using hj⟩
  · intro l k p hmem fd hslot
    have hinv := stateInv_runAll l (k, p) hmem
    rcases hslot with h | h
    · exact (hinv.1 fd h).symm
    · exact (hinv.2 fd h).symm
  · intro s fd1 fd2 role hrole _
    exact joinSlot_step_self hrole

/-- C7, witness: a single checklist insertion is reachable at its key,
and a same-slot overwrite keeps the second record. -/
theorem C7_project_key_and_completeness_witness :
    (∃ p : ReviewPair,
      dictGet (runAll ([] ++ (FileData.mk "c" ["P"] ["プロジェクト名"] [],
          "checklist") :: []))
        (ReviewValidator.extract_project_name
          (FileData.mk "c" ["P"] ["プロジェクト名"] [])) = some p ∧
      slotGet p "checklist" = some (FileData.mk "c" ["P"] ["プロジェクト名"] [])) ∧
    joinSlot (step (step [] (FileData.mk "a" ["P"] ["プロジェクト名"] [], "record"))
        (FileData.mk "b" ["P"] ["プロジェクト名"] [], "record"))
      (ReviewValidator.extract_project_name
        (FileData.mk "b" ["P"] ["プロジェクト名"] [])) "record" =
      some (FileData.mk "b" ["P"] ["プロジェクト名"] []) := by
  refine ⟨C7_project_key_and_completeness.2.1 [] [] _ "checklist"
    (Or.inl rfl) ?_,
    C7_project_key_and_completeness.2.2.2.2 [] _ _ "record" (Or.inr rfl)
      (by decide)⟩
  intro e he
  exact absurd he (List.not_mem_nil e)

/-- C8: the summary is a pure reduction over the verdict sequence —
total is the length, complete counts `has_pair`, checklist-only and
record-only count the one-sided pairs, no-stamp counts
`has_stamp = false`; and the 2-complete + 1-checklist-only scenario
yields (3, 2, 1, 0, 0). -/
theorem C8_summary_counts :
    (∀ pairs : Pairs,
      (generate_summary (ReviewValidator.validate_all pairs)).total_pairs =
          (ReviewValidator.validate_all pairs).length ∧
      (generate_summary (ReviewValidator.validate_all pairs)).complete_pairs =
          (ReviewValidator.validate_all pairs).countP
            (fun r => r.validation.has_pair) ∧
      (generate_summary (ReviewValidator.validate_all pairs)).checklist_only =
          (ReviewValidator.validate_all pairs).countP
            (fun r => r.checklist.isSome && r.record.isNone) ∧
      (generate_summary (ReviewValidator.validate_all pairs)).record_only =
          (ReviewValidator.validate_all pairs).countP
            (fun r => r.record.isSome && r.checklist.isNone) ∧
      (generate_summary (ReviewValidator.validate_all pairs)).no_stamp =
          (ReviewValidator.validate_all pairs).countP
            (fun r => decide (r.validation.has_stamp = some false))) ∧
    generate_summary (ReviewValidator.validate_all (runAll
      [(FileData.mk "c1" ["P1", "2025-01-01", "山田"]
          ["プロジェクト名", "日付", "担当者"] [], "checklist"),
       (FileData.mk "r1" ["P1", "2025-01-01", "山田"]
          ["プロジェクト名", "承認日", "レビュアー"] ["○"], "record"),
       (FileData.mk "c2" ["P2", "2025-01-02", "佐藤"]
          ["プロジェクト名", "日付", "担当者"] [], "checklist"),
       (FileData.mk "r2" ["P2", "2025-01-02", "佐藤"]
          ["プロジェクト名", "承認日", "レビュアー"] ["○"], "record"),
       (FileData.mk "c3" ["P3"] ["プロジェクト名"] [], "checklist")])) =
      { total_pairs := 3, complete_pairs := 2, checklist_only := 1,
        record_only := 0, no_stamp := 0 } := by
  constructor
  · intro pairs
    rw [generate_summary, summaryLoop_spec]
    refine ⟨rfl, by simp, ?_, ?_, by simp⟩
    · simp only [Nat.zero_add]
      apply List.countP_congr
      intro r hr
      obtain ⟨pair, hc, hrec, hv⟩ := mem_validate_all hr
      by_cases hshape : (r.checklist.isSome && r.record.isNone) = true
      · have hfp : r.validation.has_pair = false := by
          rw [hv]
          exact has_pair_false_of_checklist_only (by rw [← hc, ← hrec]; exact hshape)
        simp [hshape, hfp]
      · simp [hshape]
    · simp only [Nat.zero_add]
      apply List.countP_congr
      intro r hr
      obtain ⟨pair, hc, hrec, hv⟩ := mem_validate_all hr
      by_cases hshape : (r.record.isSome && r.checklist.isNone) = true
      · have hfp : r.validation.has_pair = false := by
          rw [hv]
          exact has_pair_false_of_record_only (by rw [← hc, ← hrec]; exact hshape)
        simp [hshape, hfp]
      · simp [hshape]
  · decide

/-- C9: the engine is total — with Python's partial primitives (list
indexing, `list.index`, dict access) made explicit, `add_file` and
`validate_all` always return `ok` of the pure result, for every state,
record and role. -/
theorem C9_totality :
    (∀ (pairs : Pairs) (file_data : FileData) (file_type : String),
      add_fileE pairs file_data file_type =
        Except.ok (ReviewValidator.add_file pairs file_data file_type)) ∧
    (∀ pairs : Pairs,
      validate_allE pairs = Except.ok (ReviewValidator.validate_all pairs)) :=
  ⟨add_fileE_ok, validate_allE_ok⟩

/-- C10: an insertion with a role other than "checklist" and "record" as
the only insertion for its key leaves an empty pair whose validation
falls through every incomplete-pair branch: `has_pair = true`, all three
checks false, the inconsistency status, and the three warnings. -/
theorem C10_empty_pair_fallthrough :
    (∀ k : String, (ReviewPair.mk k none none).validate =
      { has_pair := true, date_match := some false, reviewer_match := some false,
        has_stamp := some false, status := "⚠️ 不一致あり",
        warnings := ["日付が一致しません", "担当者/レビュアーが一致しません",
          "捺印がありません"] }) ∧
    (∀ (fd : FileData) (role : String), role ≠ "checklist" → role ≠ "record" →
      ReviewValidator.validate_all (ReviewValidator.add_file [] fd role) =
        [{ project_name := ReviewValidator.extract_project_name fd,
           checklist := none, record := none,
           validation :=
             { has_pair := true, date_match := some false,
               reviewer_match := some false, has_stamp := some false,
               status := "⚠️ 不一致あり",
               warnings := ["日付が一致しません", "担当者/レビュアーが一致しません",
                 "捺印がありません"] } }]) := by
  constructor
  · intro k
    rfl
  · intro fd role h1 h2
    have hstate : ReviewValidator.add_file [] fd role =
        [(ReviewValidator.extract_project_name fd,
          ReviewPair.mk (ReviewValidator.extract_project_name fd) none none)] := by
      rw [add_file_eq, if_neg (by rintro (h | h) <;> [exact h1 h; exact h2 h])]
      rfl
    rw [hstate]
    unfold ReviewValidator.validate_all
    simp [dictGet]
    rfl

/-- C10, witness at a concrete role "unknown" insertion. -/
theorem C10_empty_pair_fallthrough_witness :
    ReviewValidator.validate_all (ReviewValidator.add_file []
        (FileData.mk "u.xlsx" ["P9"] ["プロジェクト名"] []) "unknown") =
      [{ project_name := ReviewValidator.extract_project_name
           (FileData.mk "u.xlsx" ["P9"] ["プロジェクト名"] []),
         checklist := none, record := none,
         validation :=
           { has_pair := true, date_match := some false,
             reviewer_match := some false, has_stamp := some false,
             status := "⚠️ 不一致あり",
             warnings := ["日付が一致しません", "担当者/レビュアーが一致しません",
               "捺印がありません"] } }] :=
  C10_empty_pair_fallthrough.2 (FileData.mk "u.xlsx" ["P9"] ["プロジェクト名"] [])
    "unknown" (by decide) (by decide)

end ExcelChecker
